import Mathlib

/-!
Shallow embedding of the GoCastify core (media HTTP server, SSDP discovery,
DLNA device control, ffmpeg transcoder with artifact cache) and proofs of
the specification claims about it.

Go maps are modelled as association lists with the usual lookup / insert /
erase operations; Go strings are modelled either as Lean `String` or, where
character-level parsing from the source matters, as `List Char`.  Blocking
forever (a goroutine deadlocked on a mutex) is modelled by `Option`, with
`none` meaning the operation never returns.
-/

set_option autoImplicit false

namespace GoCastify

/-! ### Association-list model of Go maps -/

def mlookup {α β : Type} [DecidableEq α] : List (α × β) → α → Option β
  | [], _ => none
  | (k, v) :: t, a => if k = a then some v else mlookup t a

/-- Go `m[k] = v`: replace the binding in place, or append a fresh one. -/
def minsert {α β : Type} [DecidableEq α] : List (α × β) → α → β → List (α × β)
  | [], a, b => [(a, b)]
  | (k, v) :: t, a, b => if k = a then (a, b) :: t else (k, v) :: minsert t a b

/-- Go `delete(m, k)`. -/
def merase {α β : Type} [DecidableEq α] : List (α × β) → α → List (α × β)
  | [], _ => []
  | (k, v) :: t, a => if k = a then merase t a else (k, v) :: merase t a

/-- The keys of the map are pairwise distinct (true of every reachable Go map). -/
def keysNodup {α β : Type} (m : List (α × β)) : Prop :=
  (m.map Prod.fst).Nodup

instance {α β : Type} [DecidableEq α] (m : List (α × β)) : Decidable (keysNodup m) := by
  unfold keysNodup
  infer_instance

theorem mlookup_minsert {α β : Type} [DecidableEq α] (m : List (α × β)) (a : α) (b : β) :
    mlookup (minsert m a b) a = some b := by
  induction m with
  | nil => simp [minsert, mlookup]
  | cons kv t ih =>
    obtain ⟨k, v⟩ := kv
    by_cases h : k = a <;> simp [minsert, mlookup, h, ih]

theorem mlookup_minsert_ne {α β : Type} [DecidableEq α] (m : List (α × β)) (a a' : α) (b : β)
    (h : a ≠ a') : mlookup (minsert m a b) a' = mlookup m a' := by
  induction m with
  | nil => simp [minsert, mlookup, h]
  | cons kv t ih =>
    obtain ⟨k, v⟩ := kv
    by_cases hk : k = a
    · subst hk
      simp [minsert, mlookup, h, ih]
    · simp only [minsert, if_neg hk, mlookup]
      by_cases hk' : k = a' <;> simp [hk', ih]

theorem mlookup_merase {α β : Type} [DecidableEq α] (m : List (α × β)) (a : α) :
    mlookup (merase m a) a = none := by
  induction m with
  | nil => simp [merase, mlookup]
  | cons kv t ih =>
    obtain ⟨k, v⟩ := kv
    by_cases h : k = a
    · simpa [merase, h] using ih
    · simpa [merase, mlookup, h] using ih

theorem mlookup_merase_ne {α β : Type} [DecidableEq α] (m : List (α × β)) (a a' : α)
    (h : a ≠ a') : mlookup (merase m a) a' = mlookup m a' := by
  induction m with
  | nil => simp [merase, mlookup]
  | cons kv t ih =>
    obtain ⟨k, v⟩ := kv
    by_cases hk : k = a
    · subst hk
      have hka' : ¬ k = a' := h
      simp only [merase, if_pos rfl, mlookup, if_neg hka']
      exact ih
    · simp only [merase, if_neg hk, mlookup]
      by_cases hk' : k = a'
      · simp [hk']
      · simp only [if_neg hk']
        exact ih

theorem mem_map_fst_minsert {α β : Type} [DecidableEq α] (m : List (α × β)) (a : α) (b : β)
    (k : α) (hmem : k ∈ (minsert m a b).map Prod.fst) : k ∈ m.map Prod.fst ∨ k = a := by
  induction m with
  | nil =>
    simp only [minsert, List.map_cons, List.map_nil, List.mem_singleton] at hmem
    exact Or.inr hmem
  | cons kv t ih =>
    obtain ⟨k', v'⟩ := kv
    by_cases hk : k' = a
    · rw [show minsert ((k', v') :: t) a b = (a, b) :: t from by simp [minsert, hk]] at hmem
      simp only [List.map_cons, List.mem_cons] at hmem
      rcases hmem with h1 | h1
      · exact Or.inr h1
      · exact Or.inl (List.mem_cons_of_mem _ h1)
    · rw [show minsert ((k', v') :: t) a b = (k', v') :: minsert t a b from by
        simp [minsert, hk]] at hmem
      simp only [List.map_cons, List.mem_cons] at hmem
      rcases hmem with h1 | h1
      · exact Or.inl (List.mem_cons.mpr (Or.inl h1))
      · rcases ih h1 with h2 | h2
        · exact Or.inl (List.mem_cons_of_mem _ h2)
        · exact Or.inr h2

theorem keysNodup_minsert {α β : Type} [DecidableEq α] (m : List (α × β)) (a : α) (b : β)
    (h : keysNodup m) : keysNodup (minsert m a b) := by
  induction m with
  | nil => simp [minsert, keysNodup]
  | cons kv t ih =>
    obtain ⟨k, v⟩ := kv
    simp only [keysNodup, List.map_cons, List.nodup_cons] at h
    by_cases hk : k = a
    · subst hk
      simpa [minsert, keysNodup] using h
    · have ht := ih h.2
      simp only [minsert, if_neg hk, keysNodup, List.map_cons, List.nodup_cons]
      refine ⟨?_, ht⟩
      intro hmem
      rcases mem_map_fst_minsert t a b k hmem with hmem' | hEq
      · exact h.1 hmem'
      · exact hk hEq

theorem mem_map_fst_merase {α β : Type} [DecidableEq α] (m : List (α × β)) (a k : α)
    (hmem : k ∈ (merase m a).map Prod.fst) : k ∈ m.map Prod.fst := by
  induction m with
  | nil => simp [merase] at hmem
  | cons kv t ih =>
    obtain ⟨k', v'⟩ := kv
    by_cases hk : k' = a
    · simp only [merase, if_pos hk] at hmem
      exact List.mem_cons_of_mem _ (ih hmem)
    · simp only [merase, if_neg hk, List.map_cons, List.mem_cons] at hmem
      rcases hmem with h1 | h1
      · exact List.mem_cons.mpr (Or.inl h1)
      · exact List.mem_cons_of_mem _ (ih h1)

theorem keysNodup_merase {α β : Type} [DecidableEq α] (m : List (α × β)) (a : α)
    (h : keysNodup m) : keysNodup (merase m a) := by
  induction m with
  | nil => simpa [merase] using h
  | cons kv t ih =>
    obtain ⟨k, v⟩ := kv
    simp only [keysNodup, List.map_cons, List.nodup_cons] at h
    by_cases hk : k = a
    · simp only [merase, if_pos hk]
      exact ih h.2
    · simp only [merase, if_neg hk, keysNodup, List.map_cons, List.nodup_cons]
      exact ⟨fun hmem => h.1 (mem_map_fst_merase t a k hmem), ih h.2⟩

/-- Number of entries of the map carrying key `a`. -/
def countKey {α β : Type} [DecidableEq α] : List (α × β) → α → Nat
  | [], _ => 0
  | (k, _) :: t, a => (if k = a then 1 else 0) + countKey t a

theorem countKey_eq_zero {α β : Type} [DecidableEq α] (m : List (α × β)) (a : α)
    (h : a ∉ m.map Prod.fst) : countKey m a = 0 := by
  induction m with
  | nil => simp [countKey]
  | cons kv t ih =>
    obtain ⟨k, v⟩ := kv
    simp only [List.map_cons, List.mem_cons] at h
    push_neg at h
    have hka : ¬ k = a := fun hk => h.1 hk.symm
    simp only [countKey, if_neg hka, Nat.zero_add]
    exact ih h.2

theorem countKey_le_one {α β : Type} [DecidableEq α] (m : List (α × β)) (a : α)
    (h : keysNodup m) : countKey m a ≤ 1 := by
  induction m with
  | nil => simp [countKey]
  | cons kv t ih =>
    obtain ⟨k, v⟩ := kv
    simp only [keysNodup, List.map_cons, List.nodup_cons] at h
    by_cases hk : k = a
    · subst hk
      have hz : countKey t k = 0 := countKey_eq_zero t k h.1
      simp [countKey, hz]
    · have := ih h.2
      simpa [countKey, hk] using this

/-! ### Character-level models of the Go standard-library string functions
used by the media server's range parser (`strconv.ParseInt`,
`strings.Split`, `filepath.Ext`, `strings.ToLower`). -/

/-- Value of an ASCII decimal digit, `none` for any other character. -/
def digitVal (c : Char) : Option Nat :=
  if 48 ≤ c.toNat ∧ c.toNat ≤ 57 then some (c.toNat - 48) else none

def parseDigitsAux (acc : Nat) : List Char → Option Nat
  | [] => some acc
  | c :: cs =>
    match digitVal c with
    | some d => parseDigitsAux (acc * 10 + d) cs
    | none => none

/-- A non-empty all-digit string read as a decimal number. -/
def parseDigits : List Char → Option Nat
  | [] => none
  | c :: cs => parseDigitsAux 0 (c :: cs)

def int64Max : Int := 9223372036854775807

def int64Min : Int := -9223372036854775808

/-- Model of Go `strconv.ParseInt(s, 10, 64)`: optional sign, at least one
decimal digit, result within the `int64` range. -/
def goParseInt (s : List Char) : Option Int :=
  match s with
  | [] => none
  | '+' :: rest =>
    (parseDigits rest).bind fun n => if (n : Int) ≤ int64Max then some (n : Int) else none
  | '-' :: rest =>
    (parseDigits rest).bind fun n => if int64Min ≤ -(n : Int) then some (-(n : Int)) else none
  | l =>
    (parseDigits l).bind fun n => if (n : Int) ≤ int64Max then some (n : Int) else none

/-- Model of Go `strings.Split(s, sep)` for a one-character separator. -/
def goSplit (sep : Char) : List Char → List (List Char)
  | [] => [[]]
  | c :: rest =>
    if c = sep then [] :: goSplit sep rest
    else
      match goSplit sep rest with
      | [] => [[c]]
      | h :: t => (c :: h) :: t

theorem parseDigitsAux_digits (l : List Char) (acc n : Nat)
    (h : parseDigitsAux acc l = some n) :
    ∀ c ∈ l, 48 ≤ c.toNat ∧ c.toNat ≤ 57 := by
  induction l generalizing acc with
  | nil => intro c hc; simp at hc
  | cons c cs ih =>
    intro c' hc'
    simp only [parseDigitsAux] at h
    rcases hd : digitVal c with _ | d
    · rw [hd] at h; exact absurd h (by simp)
    · rw [hd] at h
      rcases List.mem_cons.mp hc' with h1 | h1
      · subst h1
        by_contra hcon
        simp [digitVal, hcon] at hd
      · exact ih (acc * 10 + d) h c' h1

theorem parseDigits_digits (l : List Char) (n : Nat) (h : parseDigits l = some n) :
    ∀ c ∈ l, 48 ≤ c.toNat ∧ c.toNat ≤ 57 := by
  cases l with
  | nil => simp [parseDigits] at h
  | cons c cs => exact parseDigitsAux_digits (c :: cs) 0 n h

theorem parseDigits_ne_nil (l : List Char) (n : Nat) (h : parseDigits l = some n) :
    l ≠ [] := by
  intro he; subst he; simp [parseDigits] at h

theorem not_dash_of_digit (c : Char) (h : 48 ≤ c.toNat ∧ c.toNat ≤ 57) : c ≠ '-' := by
  intro he; subst he; revert h; decide

theorem not_dash_mem_of_parseDigits (l : List Char) (n : Nat)
    (h : parseDigits l = some n) : '-' ∉ l := by
  intro hmem
  exact not_dash_of_digit '-' (parseDigits_digits l n h '-' hmem) rfl

/-- `goParseInt` succeeds on a plain digit string within the `int64` range. -/
theorem goParseInt_of_parseDigits (l : List Char) (n : Nat)
    (h : parseDigits l = some n) (hbound : (n : Int) ≤ int64Max) :
    goParseInt l = some (n : Int) := by
  cases l with
  | nil => simp [parseDigits] at h
  | cons c cs =>
    have hdig := parseDigits_digits (c :: cs) n h c (List.mem_cons_self c cs)
    have hplus : c ≠ '+' := by intro he; subst he; revert hdig; decide
    have hminus : c ≠ '-' := not_dash_of_digit c hdig
    have hgp : goParseInt (c :: cs) =
        (parseDigits (c :: cs)).bind fun m =>
          if (m : Int) ≤ int64Max then some (m : Int) else none := by
      simp only [goParseInt]
      split
      next heq => exact absurd heq (by simp)
      next rest heq => exact absurd (List.cons.inj heq).1 hplus
      next rest heq => exact absurd (List.cons.inj heq).1 hminus
      next => rfl
    rw [hgp, h]
    simp [hbound]

theorem goSplit_ne_nil (sep : Char) (l : List Char) : goSplit sep l ≠ [] := by
  cases l with
  | nil => simp [goSplit]
  | cons c rest =>
    by_cases h : c = sep
    · simp [goSplit, h]
    · simp only [goSplit, if_neg h]
      rcases hs : goSplit sep rest with _ | ⟨hh, tt⟩ <;> simp

theorem goSplit_no_sep (sep : Char) (l : List Char) (h : sep ∉ l) :
    goSplit sep l = [l] := by
  induction l with
  | nil => simp [goSplit]
  | cons c rest ih =>
    simp only [List.mem_cons] at h
    push_neg at h
    have hcs : ¬ c = sep := fun he => h.1 he.symm
    simp only [goSplit, if_neg hcs, ih h.2]

theorem goSplit_append (sep : Char) (l1 l2 : List Char) (h : sep ∉ l1) :
    goSplit sep (l1 ++ sep :: l2) = l1 :: goSplit sep l2 := by
  induction l1 with
  | nil => simp [goSplit]
  | cons c rest ih =>
    simp only [List.mem_cons] at h
    push_neg at h
    have hcs : ¬ c = sep := fun he => h.1 he.symm
    simp only [List.cons_append, goSplit, if_neg hcs]
    rw [show rest.append (sep :: l2) = rest ++ sep :: l2 from rfl, ih h.2]

/-- ASCII lowering of one character (`strings.ToLower` restricted to the
ASCII extensions the server compares against). -/
def asciiToLower (c : Char) : Char :=
  if 65 ≤ c.toNat ∧ c.toNat ≤ 90 then Char.ofNat (c.toNat + 32) else c

def goExtAux : List Char → List Char → List Char
  | [], _ => []
  | c :: rest, acc =>
    if c = '.' then '.' :: acc
    else if c = '/' then []
    else goExtAux rest (c :: acc)

/-- Model of Go `filepath.Ext`: the suffix starting at the final dot in the
final slash-separated element, empty if there is none. -/
def goExt (p : List Char) : List Char :=
  goExtAux p.reverse []

/-! ### Media server: `server.handleMediaRequest` and the range-aware file
responder `serveFileEfficiently` / `handleRangeRequest` (part_000). -/

/-- `transcoder.IsSupportedFormat`: `(supported, needsTranscode)`. -/
def IsSupportedFormat (filePath : List Char) : Bool × Bool :=
  let ext := (goExt filePath).map asciiToLower
  if ext = ".mp4".toList ∨ ext = ".m4v".toList then (true, false)
  else if ext = ".mkv".toList ∨ ext = ".avi".toList ∨ ext = ".wmv".toList ∨
      ext = ".flv".toList ∨ ext = ".mov".toList ∨ ext = ".mpg".toList ∨
      ext = ".mpeg".toList ∨ ext = ".webm".toList then (true, true)
  else (false, false)

/-- Outcome of `handleMediaRequest` before any file body is produced. -/
inductive MediaOutcome where
  | notFound
  | optionsOk
  | unsupported
  | serveDirect
  | transcodeAndServe
deriving DecidableEq

/-- HTTP status written by the branches of `handleMediaRequest` that decide
the response on their own (the two serve outcomes continue elsewhere). -/
def statusOfOutcome : MediaOutcome → Option Nat
  | .notFound => some 404
  | .optionsOk => some 200
  | .unsupported => some 415
  | .serveDirect => none
  | .transcodeAndServe => none

/-- `MediaServer.handleMediaRequest` for a request with method `method`,
resolved file path `filePath` (`filepath.Join(ms.mediaPath, r.URL.Path)`),
and `fileExistsAt` the result of `os.Stat` on that path. -/
def handleMediaRequest (method : List Char) (filePath : List Char)
    (fileExistsAt : Bool) : MediaOutcome :=
  if ¬ fileExistsAt then .notFound
  else if method = "OPTIONS".toList then .optionsOk
  else
    let sf := IsSupportedFormat filePath
    if ¬ sf.1 then .unsupported
    else if ¬ sf.2 then .serveDirect
    else .transcodeAndServe

/-- The pieces of an HTTP response that the range responder writes:
status code, `Content-Range: bytes start-end/size`, `Content-Length`,
and the number of media-body bytes copied to the client. -/
structure RangeResponse where
  status : Nat
  contentRange : Option (Int × Int × Int)
  contentLength : Option Int
  bodyLen : Int
deriving DecidableEq

/-- The `start`/`end` parsing block of `handleRangeRequest`: defaults
`start = 0`, `end = fileSize-1`; a header of the form `bytes=...` is split
on `-` and each present, non-empty, parseable bound overrides its default. -/
def parseRangeHeader (rangeHeader : List Char) (fileSize : Int) : Int × Int :=
  if rangeHeader.length > 6 ∧ rangeHeader.take 6 = "bytes=".toList then
    let parts := goSplit '-' (rangeHeader.drop 6)
    let start : Int :=
      match parts.head? with
      | some p0 =>
        if p0 ≠ [] then
          match goParseInt p0 with
          | some s => s
          | none => 0
        else 0
      | none => 0
    let endv : Int :=
      match parts[1]? with
      | some p1 =>
        if p1 ≠ [] then
          match goParseInt p1 with
          | some e => e
          | none => fileSize - 1
        else fileSize - 1
      | none => fileSize - 1
    (start, endv)
  else (0, fileSize - 1)

/-- `MediaServer.handleRangeRequest`: validate the parsed range, clamp the
end bound, and copy `end-start+1` bytes through an `io.SectionReader`.
The `bodyLen` of the 206 branch is the number of bytes the section reader
can actually deliver from a file of `fileSize` bytes. -/
def handleRangeRequest (rangeHeader : List Char) (fileSize : Int) : RangeResponse :=
  let p := parseRangeHeader rangeHeader fileSize
  let start := p.1
  let endv0 := p.2
  if start < 0 ∨ start ≥ fileSize then
    { status := 416, contentRange := none, contentLength := none, bodyLen := 0 }
  else
    let endv := if endv0 < start ∨ endv0 ≥ fileSize then fileSize - 1 else endv0
    let length := endv - start + 1
    { status := 206
      contentRange := some (start, endv, fileSize)
      contentLength := some length
      bodyLen := min length (fileSize - start) }

/-- `MediaServer.serveFileEfficiently` for an existing, openable file of
`fileSize` bytes: an absent `Range` header streams the whole file with
status 200, otherwise the request is handed to `handleRangeRequest`. -/
def serveFileEfficiently (rangeHeader : List Char) (fileSize : Int) : RangeResponse :=
  if rangeHeader = [] then
    { status := 200, contentRange := none, contentLength := some fileSize,
      bodyLen := fileSize }
  else handleRangeRequest rangeHeader fileSize

/-! ### Media server lifecycle: `MediaServer.Start` / `MediaServer.Stop`
(part_000).  `ms.mu` is an ordinary non-reentrant `sync.Mutex`; acquiring
it while the same goroutine already holds it blocks forever, which the
embedding renders as `none`. -/

structure MediaServer where
  port : Int
  mediaPath : String
  isRunning : Bool
  /-- `ms.httpServer != nil` -/
  httpServerBound : Bool
  /-- `ms.transcoder.Cleanup()` has been invoked -/
  transcoderCleaned : Bool
  /-- `ms.mu` is currently held -/
  muHeld : Bool
deriving DecidableEq

/-- `ms.mu.Lock()`: blocks forever (`none`) if the mutex is already held. -/
def goLock (ms : MediaServer) : Option MediaServer :=
  if ms.muHeld then none else some { ms with muHeld := true }

/-- `ms.mu.Unlock()` (the deferred unlock). -/
def goUnlock (ms : MediaServer) : MediaServer :=
  { ms with muHeld := false }

/-- `MediaServer.GetServerURL`, with `localIP` the value produced by
`getLocalIP` (empty when no suitable interface address exists). -/
def GetServerURL (localIP : String) (ms : MediaServer) : String :=
  let ip := if localIP = "" then "localhost" else localIP
  "http://" ++ ip ++ ":" ++ ms.port.repr

/-- `MediaServer.Stop`.  `shutdownErr` is the result of
`httpServer.Shutdown`; the second component of the result is the returned
`error` (`none` = `nil`). -/
def MediaServer.Stop (shutdownErr : Option String) (ms : MediaServer) :
    Option (MediaServer × Option String) :=
  match goLock ms with
  | none => none
  | some ms1 =>
    if ¬ ms1.isRunning ∨ ¬ ms1.httpServerBound then some (goUnlock ms1, none)
    else
      match shutdownErr with
      | some e => some (goUnlock ms1, some e)
      | none =>
        some (goUnlock { ms1 with isRunning := false, transcoderCleaned := true }, none)

/-- `MediaServer.Start`.  When the server is running on a different media
path, the source calls `ms.Stop()` at line 65 while still holding `ms.mu`
(taken at line 55); `Stop` re-locks the same mutex at line 107, so that
call never returns: the embedding yields `none`. -/
def MediaServer.Start (localIP : String) (ms : MediaServer) (mediaPath : String) :
    Option (MediaServer × String) :=
  match goLock ms with
  | none => none
  | some ms1 =>
    if ms1.isRunning then
      if ms1.mediaPath = mediaPath then some (goUnlock ms1, GetServerURL localIP ms1)
      else
        match goLock ms1 with
        | none => none
        | some _ => none
    else
      let ms2 := { ms1 with mediaPath := mediaPath, httpServerBound := true,
                            isRunning := true }
      some (goUnlock ms2, GetServerURL localIP ms2)

/-! ### DLNA device controller: `sendSOAPRequestWithContext` and
`PlayMediaWithContext` (part_001). -/

inductive SoapError where
  /-- `client.Do` failed (network / transport error). -/
  | transport (action : String)
  /-- `resp.StatusCode != http.StatusOK`: the error carries the action
  name and the status code. -/
  | status (action : String) (code : Nat)
deriving DecidableEq

/-- `DeviceController.sendSOAPRequestWithContext`.  `resp` is `none` when
the POST itself fails, otherwise the HTTP status code of the response. -/
def sendSOAPRequestWithContext (action : String) (resp : Option Nat) :
    Except SoapError Unit :=
  match resp with
  | none => .error (.transport action)
  | some code => if code ≠ 200 then .error (.status action code) else .ok ()

def soapOk {ε : Type} (r : Except ε Unit) : Bool :=
  match r with
  | .ok _ => true
  | .error _ => false

/-- Observable steps of one `PlayMediaWithContext` invocation, in order. -/
inductive PlayEvent where
  | soap (action : String)
  | settleDelay
  | subscriptionStart
deriving DecidableEq

inductive PlayError where
  | soapFail (e : SoapError)
  | ctxCancelled
deriving DecidableEq

/-- The remote side of one `playMedia` run: response to the
`SetAVTransportURI` POST, whether the context is cancelled during the
2-second settle delay, and response to the `Play` POST. -/
structure PlayEnv where
  setResp : Option Nat
  sleepCancelled : Bool
  playResp : Option Nat

/-- `DeviceController.PlayMediaWithContext`: result plus the ordered list
of steps that were attempted. -/
def PlayMediaWithContext (env : PlayEnv) : Except PlayError Unit × List PlayEvent :=
  match sendSOAPRequestWithContext "SetAVTransportURI" env.setResp with
  | .error e => (.error (.soapFail e), [.soap "SetAVTransportURI"])
  | .ok _ =>
    if env.sleepCancelled then
      (.error .ctxCancelled, [.soap "SetAVTransportURI", .settleDelay])
    else
      match sendSOAPRequestWithContext "Play" env.playResp with
      | .error e =>
        (.error (.soapFail e), [.soap "SetAVTransportURI", .settleDelay, .soap "Play"])
      | .ok _ =>
        (.ok (), [.soap "SetAVTransportURI", .settleDelay, .soap "Play",
                  .subscriptionStart])

/-! ### SSDP discovery: `processResult` and the final stage of
`SearchDevicesWithContext` (part_002).  The concurrent `processResult`
goroutines mutate `allDevices` / `processedLocations` under `resultMutex`;
the embedding serialises them in dispatch order. -/

/-- One `ssdp.Service` search response. -/
structure SSDPService where
  USN : String
  Location : String
  Server : String
deriving DecidableEq

/-- The fields of `deviceXML` that discovery extracts. -/
structure DeviceDetail where
  friendlyName : String
  UDN : String
deriving DecidableEq

structure DeviceInfo where
  USN : String
  Location : String
  Server : String
  FriendlyName : String
  UDN : String
deriving DecidableEq

/-- `processResult` for one response: fetch the description at
`res.Location` (`fetch` models `getDeviceDetailsWithContext`; `none` is a
failed fetch) and, on success, store the device keyed by its UDN.  A
failed fetch just returns. -/
def processResult (fetch : String → Option DeviceDetail) (res : SSDPService)
    (allDevices : List (String × DeviceInfo)) : List (String × DeviceInfo) :=
  match fetch res.Location with
  | none => allDevices
  | some detail =>
    minsert allDevices detail.UDN
      { USN := res.USN, Location := res.Location, Server := res.Server,
        FriendlyName := detail.friendlyName, UDN := detail.UDN }

/-- The dispatch loop of `SearchDevicesWithContext`: each response whose
`Location` has not been processed yet is marked seen and handed to
`processResult`. -/
def searchLoop (fetch : String → Option DeviceDetail) :
    List SSDPService → List String → List (String × DeviceInfo) →
      List String × List (String × DeviceInfo)
  | [], seen, acc => (seen, acc)
  | res :: rest, seen, acc =>
    if res.Location ∈ seen then searchLoop fetch rest seen acc
    else searchLoop fetch rest (res.Location :: seen) (processResult fetch res acc)

/-- All responses of one discovery session reduced to the `allDevices`
map. -/
def runDiscoverySession (responses : List SSDPService)
    (fetch : String → Option DeviceDetail) : List (String × DeviceInfo) :=
  (searchLoop fetch responses [] []).2

/-- The final `select` of `SearchDevicesWithContext`: on normal completion
the accumulated devices are returned; on timeout / cancellation
(`timedOut = true`) they are returned only when non-empty, otherwise the
context error is surfaced. -/
def SearchDevicesWithContext (responses : List SSDPService)
    (fetch : String → Option DeviceDetail) (timedOut : Bool) :
    Except String (List DeviceInfo) :=
  let allDevices := runDiscoverySession responses fetch
  let devices := allDevices.map Prod.snd
  if timedOut then
    if devices.length > 0 then .ok devices else .error "context deadline exceeded"
  else .ok devices

/-! ### Transcoder: artifact cache (`getCachedOutput`,
`cleanupExpiredCache`) and `TranscodeToMp4` (transcoder.go).  Time is an
integer nanosecond count; the several `time.Now()` reads within one call
are identified. -/

/-- The cache-related fields of `transcoder.Transcoder`. -/
structure TranscoderState where
  transcodingCache : List (String × String)
  cacheExpiry : List (String × Int)
  tempDir : String
deriving DecidableEq

/-- `24 * time.Hour` in nanoseconds. -/
def cacheTTL : Int := 24 * 60 * 60 * 1000000000

/-- `cleanupExpiredCache`: drop every key whose expiry lies strictly in
the past (`now.After(expiry)`), removing the backing file of each dropped
key that still has a cache entry.  Returns the new state and the list of
files handed to `os.Remove`. -/
def cleanupExpiredCache (now : Int) (st : TranscoderState) :
    TranscoderState × List String :=
  let expiredKeys := (st.cacheExpiry.filter (fun kv => now > kv.2)).map Prod.fst
  let removed := expiredKeys.filterMap (fun k => mlookup st.transcodingCache k)
  ({ st with
     transcodingCache := expiredKeys.foldl (fun m k => merase m k) st.transcodingCache
     cacheExpiry := expiredKeys.foldl (fun m k => merase m k) st.cacheExpiry },
   removed)

/-- `getCachedOutput`: lazily purge expired entries, then check the key;
a surviving entry whose artifact no longer exists on disk (`fsExists`
models `os.Stat`) is evicted.  Result: `((path, valid), state, removed)`. -/
def getCachedOutput (now : Int) (fsExists : String → Bool) (cacheKey : String)
    (st : TranscoderState) : (String × Bool) × TranscoderState × List String :=
  let c := cleanupExpiredCache now st
  let st1 := c.1
  match mlookup st1.transcodingCache cacheKey with
  | none => (("", false), st1, c.2)
  | some cachedOutput =>
    if fsExists cachedOutput then ((cachedOutput, true), st1, c.2)
    else
      (("", false),
       { st1 with
         transcodingCache := merase st1.transcodingCache cacheKey
         cacheExpiry := merase st1.cacheExpiry cacheKey },
       c.2)

/-- Model of Go `filepath.Base` (empty path gives `"."`, trailing slashes
are dropped, all-slash paths give `"/"`). -/
def goBase (p : String) : String :=
  if p = "" then "."
  else
    let q := (p.toList.reverse.dropWhile (fun c => c == '/')).reverse
    if q = [] then "/"
    else String.mk (q.reverse.takeWhile (fun c => ¬ c == '/')).reverse

/-- Model of Go `strings.TrimSuffix`. -/
def goTrimSuffixStr (s sfx : String) : String :=
  if sfx.toList.isSuffixOf s.toList then
    String.mk (s.toList.take (s.toList.length - sfx.toList.length))
  else s

/-- `filepath.Ext` lifted to `String`. -/
def goExtStr (p : String) : String :=
  String.mk (goExt p.toList)

/-- `fmt.Sprintf("%s_subtitle_%d_audio_%d", inputFile, subIdx, audioIdx)`. -/
def transcodeCacheKey (inputFile : String) (subIdx audioIdx : Int) : String :=
  inputFile ++ "_subtitle_" ++ subIdx.repr ++ "_audio_" ++ audioIdx.repr

/-- The output path `TranscodeToMp4` derives:
`filepath.Join(tempDir, baseName + "_transcoded" + suffix + ".mp4")`
(for a clean `tempDir` the join is plain concatenation with `/`). -/
def transcodeOutputFile (tempDir inputFile : String) (subIdx audioIdx : Int) : String :=
  let baseName := goTrimSuffixStr (goBase inputFile) (goExtStr inputFile)
  let suffix :=
    (if subIdx ≥ 0 then "_sub" ++ subIdx.repr else "") ++
    (if audioIdx ≥ 0 then "_audio" ++ audioIdx.repr else "")
  tempDir ++ "/" ++ baseName ++ "_transcoded" ++ suffix ++ ".mp4"

/-- Environment of one `TranscodeToMp4` call: availability of ffmpeg,
success of the `GetMediaInfo` probe, exit status of the encode run, and
the state of the file system. -/
structure TranscodeEnv where
  ffmpegOk : Bool
  mediaInfoOk : Bool
  encodeOk : Bool
  fsExists : String → Bool

/-- Result of one `TranscodeToMp4` call: the returned `(string, error)`
pair, the state of the artifact cache afterwards, how many times the
external encoder (`exec.Command("ffmpeg", ...)`) was started, and the
files removed by `os.Remove`. -/
structure TranscodeResult where
  result : Except String String
  state : TranscoderState
  encodeRuns : Nat
  removedFiles : List String

/-- `Transcoder.TranscodeToMp4`. -/
def TranscodeToMp4 (env : TranscodeEnv) (now : Int) (st : TranscoderState)
    (inputFile : String) (subtitleTrackIndex audioTrackIndex : Int) :
    TranscodeResult :=
  let cacheKey := transcodeCacheKey inputFile subtitleTrackIndex audioTrackIndex
  let c := getCachedOutput now env.fsExists cacheKey st
  if c.1.2 then
    { result := .ok c.1.1, state := c.2.1, encodeRuns := 0, removedFiles := c.2.2 }
  else if ¬ env.ffmpegOk then
    { result := .error "ffmpeg not found", state := c.2.1, encodeRuns := 0,
      removedFiles := c.2.2 }
  else
    let outputFile :=
      transcodeOutputFile st.tempDir inputFile subtitleTrackIndex audioTrackIndex
    if ¬ env.mediaInfoOk then
      { result := .error "probe failed", state := c.2.1, encodeRuns := 0,
        removedFiles := c.2.2 }
    else if ¬ env.encodeOk then
      { result := .error "transcode failed", state := c.2.1, encodeRuns := 1,
        removedFiles := c.2.2 ++ [outputFile] }
    else
      { result := .ok outputFile
        state :=
          { c.2.1 with
            transcodingCache := minsert c.2.1.transcodingCache cacheKey outputFile
            cacheExpiry := minsert c.2.1.cacheExpiry cacheKey (now + cacheTTL) }
        encodeRuns := 1
        removedFiles := c.2.2 }

/-! ## Claims -/

/-- C10: calling `Stop` on a media server that is not running, or whose
HTTP listener was never created, returns `nil` and leaves every field of
the server state unchanged. -/
theorem C10_stop_noop (ms : MediaServer) (shutdownErr : Option String)
    (hmu : ms.muHeld = false)
    (h : ms.isRunning = false ∨ ms.httpServerBound = false) :
    MediaServer.Stop shutdownErr ms = some (ms, none) := by
  obtain ⟨port, mediaPath, isR, bound, cleaned, muH⟩ := ms
  simp only at hmu h
  subst hmu
  rcases h with h | h <;> subst h <;>
    simp [MediaServer.Stop, goLock, goUnlock]

/-- Witness for C10 at a concrete stopped server. -/
theorem C10_stop_noop_witness :
    MediaServer.Stop none
        { port := 8080, mediaPath := "/media", isRunning := false,
          httpServerBound := false, transcoderCleaned := false, muHeld := false }
      = some ({ port := 8080, mediaPath := "/media", isRunning := false,
                httpServerBound := false, transcoderCleaned := false,
                muHeld := false }, none) :=
  C10_stop_noop _ none rfl (Or.inl rfl)

/-- C3 (code bug): with the server running on `/videos/a`, `Start` on the
same path is a no-op returning the current URL, but `Start` on a
different path never returns — `Start` holds `ms.mu` and calls
`ms.Stop()`, which blocks re-acquiring the same non-reentrant mutex — so
the previous session is never stopped and no new session is started. -/
theorem C3_start_same_path_noop_diff_path_deadlock :
    MediaServer.Start "192.168.1.10"
        { port := 8080, mediaPath := "/videos/a", isRunning := true,
          httpServerBound := true, transcoderCleaned := false, muHeld := false }
        "/videos/a"
      = some ({ port := 8080, mediaPath := "/videos/a", isRunning := true,
                httpServerBound := true, transcoderCleaned := false,
                muHeld := false }, "http://192.168.1.10:8080")
    ∧ MediaServer.Start "192.168.1.10"
        { port := 8080, mediaPath := "/videos/a", isRunning := true,
          httpServerBound := true, transcoderCleaned := false, muHeld := false }
        "/videos/b"
      = none := by
  constructor <;> rfl

/-- C6: in `PlayMediaWithContext` the `SetAVTransportURI` call is always
the first attempted step (so it completes or fails strictly before `Play`
is attempted), and when it fails neither the `Play` call nor the
subscription start is ever attempted. -/
theorem C6_playMedia_sequencing (env : PlayEnv) :
    (PlayEvent.soap "Play" ∈ (PlayMediaWithContext env).2 →
      (PlayMediaWithContext env).2.head? = some (.soap "SetAVTransportURI"))
    ∧ (soapOk (sendSOAPRequestWithContext "SetAVTransportURI" env.setResp) = false →
        PlayEvent.soap "Play" ∉ (PlayMediaWithContext env).2
        ∧ PlayEvent.subscriptionStart ∉ (PlayMediaWithContext env).2) := by
  have hhead : (PlayMediaWithContext env).2.head? = some (.soap "SetAVTransportURI") := by
    unfold PlayMediaWithContext
    rcases sendSOAPRequestWithContext "SetAVTransportURI" env.setResp with e | u
    · rfl
    · by_cases hs : env.sleepCancelled
      · simp [hs]
      · simp only [hs, Bool.false_eq_true, if_false]
        rcases sendSOAPRequestWithContext "Play" env.playResp with e2 | u2 <;> rfl
  refine ⟨fun _ => hhead, fun hfail => ?_⟩
  rcases h1 : sendSOAPRequestWithContext "SetAVTransportURI" env.setResp with e | u
  · simp only [PlayMediaWithContext, h1]
    constructor <;> decide
  · rw [h1] at hfail
    simp [soapOk] at hfail

/-- Witness for C6 at a concrete environment whose set-source call fails
with status 500. -/
theorem C6_playMedia_sequencing_witness :
    PlayEvent.soap "Play" ∉ (PlayMediaWithContext ⟨some 500, false, some 200⟩).2
    ∧ PlayEvent.subscriptionStart ∉ (PlayMediaWithContext ⟨some 500, false, some 200⟩).2 :=
  (C6_playMedia_sequencing ⟨some 500, false, some 200⟩).2 (by decide)

/-- C7 (counterexample): status 204 lies in the 2xx range, yet the SOAP
call is reported as a failure, because the source accepts exactly
`http.StatusOK`. -/
theorem C7_counterexample_204 :
    (200 ≤ 204 ∧ 204 < 300)
    ∧ sendSOAPRequestWithContext "Play" (some 204) = .error (.status "Play" 204) :=
  ⟨by decide, rfl⟩

/-- C7 (amended): a remote control call succeeds iff the HTTP status is
exactly 200; on any other status it fails with an error carrying the
action name and the status code; within one `playMedia` run each action
is attempted at most once (no automatic retry), and a failing `Play`
call aborts the sequence before the subscription starts. -/
theorem C7_soap_status_exactly_200 (action : String) (code : Nat) (env : PlayEnv) :
    (soapOk (sendSOAPRequestWithContext action (some code)) = true ↔ code = 200)
    ∧ (code ≠ 200 →
        sendSOAPRequestWithContext action (some code) = .error (.status action code))
    ∧ (∀ a : String, (PlayMediaWithContext env).2.count (PlayEvent.soap a) ≤ 1)
    ∧ (env.playResp = some code → code ≠ 200 → env.sleepCancelled = false →
        soapOk (sendSOAPRequestWithContext "SetAVTransportURI" env.setResp) = true →
        (PlayMediaWithContext env).1 = .error (.soapFail (.status "Play" code))
        ∧ PlayEvent.subscriptionStart ∉ (PlayMediaWithContext env).2) := by
  refine ⟨?_, ?_, ?_, ?_⟩
  · by_cases h : code = 200 <;> simp [sendSOAPRequestWithContext, soapOk, h]
  · intro h
    simp [sendSOAPRequestWithContext, h]
  · intro a
    rcases h1 : sendSOAPRequestWithContext "SetAVTransportURI" env.setResp with e | u <;>
      simp only [PlayMediaWithContext, h1]
    · by_cases hA : a = "SetAVTransportURI" <;> simp [List.count_cons, hA]
    · by_cases hs : env.sleepCancelled
      · simp only [hs, if_true]
        by_cases hA : a = "SetAVTransportURI" <;> simp [List.count_cons, hA]
      · simp only [hs, if_false, Bool.false_eq_true]
        rcases h2 : sendSOAPRequestWithContext "Play" env.playResp with e2 | u2 <;>
          by_cases hA : a = "SetAVTransportURI" <;> by_cases hB : a = "Play" <;>
          first
            | (exact absurd (hA ▸ hB) (by decide))
            | simp [List.count_cons, hA, hB]
  · intro hp hcode hs hset
    rcases h1 : sendSOAPRequestWithContext "SetAVTransportURI" env.setResp with e | u
    · rw [h1] at hset; simp [soapOk] at hset
    · have h2 : sendSOAPRequestWithContext "Play" env.playResp =
          .error (.status "Play" code) := by
        rw [hp]
        simp [sendSOAPRequestWithContext, hcode]
      simp only [PlayMediaWithContext, h1, hs, Bool.false_eq_true, if_false, h2]
      exact ⟨by simp, by decide⟩

/-- Witness for C7 (amended) at action `Play`, status 204, and an
environment whose `Play` call answers 204. -/
theorem C7_soap_status_exactly_200_witness :
    (PlayMediaWithContext ⟨some 200, false, some 204⟩).1
      = .error (.soapFail (.status "Play" 204))
    ∧ PlayEvent.subscriptionStart ∉ (PlayMediaWithContext ⟨some 200, false, some 204⟩).2 :=
  (C7_soap_status_exactly_200 "Play" 204 ⟨some 200, false, some 204⟩).2.2.2
    rfl (by decide) rfl (by decide)

/-- C8 (counterexample): a GET for `/media/notes.txt` when no file exists
at that path answers 404, not the claimed 415 — the existence check
precedes the format check. -/
theorem C8_counterexample_missing_txt :
    handleMediaRequest "GET".toList "/media/notes.txt".toList false = .notFound
    ∧ statusOfOutcome .notFound = some 404
    ∧ (IsSupportedFormat "/media/notes.txt".toList).1 = false := by
  refine ⟨?_, rfl, ?_⟩ <;> decide

/-- C8 (amended): a request whose path has an extension that is neither
natively supported nor transcodable yields 415 when a file exists at the
path and the method is not OPTIONS; when no file exists the server
answers 404 regardless of the extension. -/
theorem C8_unsupported_415 (method filePath : List Char)
    (hunsup : (IsSupportedFormat filePath).1 = false) :
    (method ≠ "OPTIONS".toList →
      handleMediaRequest method filePath true = .unsupported
      ∧ statusOfOutcome (handleMediaRequest method filePath true) = some 415)
    ∧ handleMediaRequest method filePath false = .notFound := by
  constructor
  · intro hm
    have h1 : handleMediaRequest method filePath true = .unsupported := by
      unfold handleMediaRequest
      rw [if_neg (show ¬¬((true : Bool) = true) by simp), if_neg hm]
      simp [hunsup]
    exact ⟨h1, by rw [h1]; rfl⟩
  · simp [handleMediaRequest]

/-- Witness for C8 (amended) at a GET for an existing `.txt` file. -/
theorem C8_unsupported_415_witness :
    handleMediaRequest "GET".toList "/media/notes.txt".toList true = .unsupported
    ∧ handleMediaRequest "GET".toList "/media/notes.txt".toList false = .notFound :=
  ⟨((C8_unsupported_415 "GET".toList "/media/notes.txt".toList (by decide)).1
      (by decide)).1,
   (C8_unsupported_415 "GET".toList "/media/notes.txt".toList (by decide)).2⟩

/-- C9 (counterexample): a search that times out with an empty
accumulated set surfaces the context error instead of returning the empty
set as a successful result. -/
theorem C9_counterexample_empty_timeout :
    SearchDevicesWithContext [] (fun _ => none) true
      = .error "context deadline exceeded" := rfl

/-- C9 (amended): a search that reaches its timeout or is cancelled
returns the devices accumulated so far as a successful result whenever at
least one device was found; with an empty accumulation it returns the
context error.  A search that completes normally always succeeds. -/
theorem C9_timeout_returns_accumulated (responses : List SSDPService)
    (fetch : String → Option DeviceDetail) :
    ((runDiscoverySession responses fetch).map Prod.snd ≠ [] →
      SearchDevicesWithContext responses fetch true
        = .ok ((runDiscoverySession responses fetch).map Prod.snd))
    ∧ ((runDiscoverySession responses fetch).map Prod.snd = [] →
        SearchDevicesWithContext responses fetch true
          = .error "context deadline exceeded")
    ∧ SearchDevicesWithContext responses fetch false
        = .ok ((runDiscoverySession responses fetch).map Prod.snd) := by
  refine ⟨?_, ?_, ?_⟩
  · intro h
    have h2 : ¬ runDiscoverySession responses fetch = [] := by
      intro he
      exact h (by simp [he])
    simp [SearchDevicesWithContext, h2]
  · intro h
    simp [SearchDevicesWithContext, h]
  · simp [SearchDevicesWithContext]

theorem mlookup_minsert_isSome {α β : Type} [DecidableEq α] (m : List (α × β))
    (a k : α) (b : β) (h : mlookup m k ≠ none) :
    mlookup (minsert m a b) k ≠ none := by
  by_cases hk : a = k
  · subst hk
    rw [mlookup_minsert]
    simp
  · rw [mlookup_minsert_ne m a k b hk]
    exact h

theorem processResult_keysNodup (fetch : String → Option DeviceDetail)
    (res : SSDPService) (acc : List (String × DeviceInfo)) (h : keysNodup acc) :
    keysNodup (processResult fetch res acc) := by
  unfold processResult
  rcases fetch res.Location with _ | d
  · exact h
  · exact keysNodup_minsert acc _ _ h

theorem processResult_lookup_isSome (fetch : String → Option DeviceDetail)
    (res : SSDPService) (acc : List (String × DeviceInfo)) (u : String)
    (h : mlookup acc u ≠ none) : mlookup (processResult fetch res acc) u ≠ none := by
  unfold processResult
  rcases fetch res.Location with _ | d
  · exact h
  · exact mlookup_minsert_isSome acc _ u _ h

theorem searchLoop_keysNodup (fetch : String → Option DeviceDetail)
    (rs : List SSDPService) (seen : List String) (acc : List (String × DeviceInfo))
    (h : keysNodup acc) : keysNodup (searchLoop fetch rs seen acc).2 := by
  induction rs generalizing seen acc with
  | nil => simpa [searchLoop] using h
  | cons res rest ih =>
    by_cases hs : res.Location ∈ seen
    · simp only [searchLoop, if_pos hs]
      exact ih seen acc h
    · simp only [searchLoop, if_neg hs]
      exact ih _ _ (processResult_keysNodup fetch res acc h)

/-- Loop invariant of `searchLoop`: every already-seen location whose
fetch succeeds has a record under its UDN, and this persists to the end
of the loop, where it also covers every response still to be processed. -/
theorem searchLoop_invariant (fetch : String → Option DeviceDetail)
    (rs : List SSDPService) (seen : List String) (acc : List (String × DeviceInfo))
    (hpre : ∀ loc ∈ seen, ∀ d, fetch loc = some d → mlookup acc d.UDN ≠ none) :
    (∀ loc ∈ seen, ∀ d, fetch loc = some d →
      mlookup (searchLoop fetch rs seen acc).2 d.UDN ≠ none)
    ∧ (∀ res ∈ rs, ∀ d, fetch res.Location = some d →
        mlookup (searchLoop fetch rs seen acc).2 d.UDN ≠ none) := by
  induction rs generalizing seen acc with
  | nil =>
    refine ⟨fun loc hloc d hd => ?_, fun res hres => ?_⟩
    · simpa [searchLoop] using hpre loc hloc d hd
    · simp at hres
  | cons res rest ih =>
    by_cases hs : res.Location ∈ seen
    · have h1 := ih seen acc hpre
      refine ⟨fun loc hloc d hd => ?_, fun r hr d hd => ?_⟩
      · simpa [searchLoop, if_pos hs] using h1.1 loc hloc d hd
      · rcases List.mem_cons.mp hr with h | h
        · subst h
          simpa [searchLoop, if_pos hs] using h1.1 r.Location hs d hd
        · simpa [searchLoop, if_pos hs] using h1.2 r h d hd
    · have hpre' : ∀ loc ∈ res.Location :: seen, ∀ d, fetch loc = some d →
          mlookup (processResult fetch res acc) d.UDN ≠ none := by
        intro loc hloc d hd
        rcases List.mem_cons.mp hloc with h | h
        · subst h
          unfold processResult
          rw [hd]
          rw [mlookup_minsert]
          simp
        · exact processResult_lookup_isSome fetch res acc d.UDN (hpre loc h d hd)
      have h1 := ih (res.Location :: seen) (processResult fetch res acc) hpre'
      refine ⟨fun loc hloc d hd => ?_, fun r hr d hd => ?_⟩
      · simpa [searchLoop, if_neg hs] using
          h1.1 loc (List.mem_cons_of_mem _ hloc) d hd
      · rcases List.mem_cons.mp hr with h | h
        · subst h
          simpa [searchLoop, if_neg hs] using
            h1.1 r.Location (List.mem_cons_self _ _) d hd
        · simpa [searchLoop, if_neg hs] using h1.2 r h d hd

/-- C2 (counterexample): a session consisting of one response whose
description fetch fails retains zero device records — the device is
silently dropped, not retained under its USN. -/
theorem C2_counterexample_failed_fetch :
    runDiscoverySession
        [{ USN := "uuid:device-1::urn:upnp-org", Location := "http://10.0.0.5/d.xml",
           Server := "Srv/1.0" }]
        (fun _ => none) = [] := rfl

/-- C2 (amended): within one discovery session the retained device map
has pairwise-distinct UDN keys, so all responses sharing one UDN yield at
most one retained record — exactly one when some response carrying that
UDN has a successful description fetch; a response whose description
fetch fails contributes no record at all (it is dropped, with no USN
fallback). -/
theorem C2_dedup_by_udn (responses : List SSDPService)
    (fetch : String → Option DeviceDetail) :
    keysNodup (runDiscoverySession responses fetch)
    ∧ (∀ u : String, countKey (runDiscoverySession responses fetch) u ≤ 1)
    ∧ (∀ res : SSDPService, ∀ acc, fetch res.Location = none →
        processResult fetch res acc = acc)
    ∧ (∀ res ∈ responses, ∀ d, fetch res.Location = some d →
        mlookup (runDiscoverySession responses fetch) d.UDN ≠ none) := by
  have hnodup : keysNodup (runDiscoverySession responses fetch) :=
    searchLoop_keysNodup fetch responses [] [] (by simp [keysNodup])
  refine ⟨hnodup, fun u => countKey_le_one _ u hnodup, ?_, ?_⟩
  · intro res acc hfail
    unfold processResult
    rw [hfail]
  · intro res hres d hd
    exact (searchLoop_invariant fetch responses [] [] (by simp)).2 res hres d hd

/-- Witness for C2 (amended): two responses sharing one UDN at different
locations yield exactly one retained record. -/
theorem C2_dedup_by_udn_witness :
    countKey
      (runDiscoverySession
        [{ USN := "uuid:tv::urn:a", Location := "http://10.0.0.5/d.xml", Server := "S1" },
         { USN := "uuid:tv::urn:b", Location := "http://10.0.0.6/d.xml", Server := "S2" }]
        (fun _ => some { friendlyName := "TV", UDN := "uuid:tv" })) "uuid:tv" ≤ 1
    ∧ mlookup
        (runDiscoverySession
          [{ USN := "uuid:tv::urn:a", Location := "http://10.0.0.5/d.xml", Server := "S1" },
           { USN := "uuid:tv::urn:b", Location := "http://10.0.0.6/d.xml", Server := "S2" }]
          (fun _ => some { friendlyName := "TV", UDN := "uuid:tv" })) "uuid:tv" ≠ none :=
  ⟨(C2_dedup_by_udn _ _).2.1 "uuid:tv",
   (C2_dedup_by_udn _ _).2.2.2
     { USN := "uuid:tv::urn:a", Location := "http://10.0.0.5/d.xml", Server := "S1" }
     (by simp) { friendlyName := "TV", UDN := "uuid:tv" } rfl⟩

theorem foldl_merase_lookup {α β : Type} [DecidableEq α] (ks : List α)
    (m : List (α × β)) (k : α) :
    mlookup (ks.foldl (fun m k => merase m k) m) k
      = if k ∈ ks then none else mlookup m k := by
  induction ks generalizing m with
  | nil => simp
  | cons a ks ih =>
    simp only [List.foldl_cons, ih, List.mem_cons]
    by_cases hk : k = a
    · subst hk
      simp only [true_or, if_true]
      by_cases hmem : k ∈ ks <;> simp [hmem, mlookup_merase]
    · by_cases hmem : k ∈ ks <;>
        simp [hmem, hk, mlookup_merase_ne m a k (fun he => hk he.symm)]

theorem foldl_merase_keysNodup {α β : Type} [DecidableEq α] (ks : List α)
    (m : List (α × β)) (h : keysNodup m) :
    keysNodup (ks.foldl (fun m k => merase m k) m) := by
  induction ks generalizing m with
  | nil => simpa using h
  | cons a ks ih => exact ih (merase m a) (keysNodup_merase m a h)

theorem mem_expired_iff {α : Type} [DecidableEq α] (m : List (α × Int)) (now : Int)
    (k : α) (h : keysNodup m) :
    k ∈ (m.filter (fun kv => now > kv.2)).map Prod.fst
      ↔ ∃ e, mlookup m k = some e ∧ now > e := by
  induction m with
  | nil => simp [mlookup]
  | cons kv t ih =>
    obtain ⟨k', e'⟩ := kv
    simp only [keysNodup, List.map_cons, List.nodup_cons] at h
    by_cases hk : k' = k
    · subst hk
      simp only [mlookup, if_pos rfl]
      simp only [List.filter_cons, decide_eq_true_eq]
      by_cases hexp : now > e'
      · rw [if_pos hexp]
        constructor
        · intro _
          exact ⟨e', rfl, hexp⟩
        · intro _
          simp
      · rw [if_neg hexp]
        constructor
        · intro hmem
          exfalso
          have hmt : k' ∈ t.map Prod.fst := by
            rcases List.mem_map.mp hmem with ⟨p, hp, hpk⟩
            exact List.mem_map.mpr ⟨p, List.mem_of_mem_filter hp, hpk⟩
          exact h.1 hmt
        · rintro ⟨e, he, hgt⟩
          obtain rfl : e' = e := Option.some.inj he
          exact absurd hgt hexp
    · simp only [mlookup, if_neg hk]
      rw [← ih h.2]
      simp only [List.filter_cons, decide_eq_true_eq]
      by_cases hexp : now > e'
      · rw [if_pos hexp]
        simp only [List.map_cons, List.mem_cons]
        constructor
        · intro hmem
          rcases hmem with hmem | hmem
          · exact absurd hmem.symm hk
          · exact hmem
        · exact fun hmem => Or.inr hmem
      · rw [if_neg hexp]

/-- What `cleanupExpiredCache` does to the entry at `k` when that entry
is expired. -/
theorem cleanup_expired_at (now : Int) (st : TranscoderState) (k : String) (e : Int)
    (hN : keysNodup st.cacheExpiry)
    (he : mlookup st.cacheExpiry k = some e) (hexp : now > e) :
    mlookup (cleanupExpiredCache now st).1.transcodingCache k = none
    ∧ mlookup (cleanupExpiredCache now st).1.cacheExpiry k = none
    ∧ (∀ p, mlookup st.transcodingCache k = some p →
        p ∈ (cleanupExpiredCache now st).2) := by
  have hmem : k ∈ (st.cacheExpiry.filter (fun kv => now > kv.2)).map Prod.fst :=
    (mem_expired_iff st.cacheExpiry now k hN).mpr ⟨e, he, hexp⟩
  refine ⟨?_, ?_, ?_⟩
  · simp [cleanupExpiredCache, foldl_merase_lookup, hmem]
  · simp [cleanupExpiredCache, foldl_merase_lookup, hmem]
  · intro p hp
    simp only [cleanupExpiredCache]
    exact List.mem_filterMap.mpr ⟨k, hmem, hp⟩

/-- `cleanupExpiredCache` leaves the entry at `k` alone when it is not
expired (including when `k` has no recorded expiry). -/
theorem cleanup_not_expired_at (now : Int) (st : TranscoderState) (k : String)
    (hN : keysNodup st.cacheExpiry)
    (h : ∀ e, mlookup st.cacheExpiry k = some e → ¬ now > e) :
    mlookup (cleanupExpiredCache now st).1.transcodingCache k
      = mlookup st.transcodingCache k
    ∧ mlookup (cleanupExpiredCache now st).1.cacheExpiry k
      = mlookup st.cacheExpiry k := by
  have hmem : k ∉ (st.cacheExpiry.filter (fun kv => now > kv.2)).map Prod.fst := by
    intro hmem
    rcases (mem_expired_iff st.cacheExpiry now k hN).mp hmem with ⟨e, he, hexp⟩
    exact h e he hexp
  constructor <;> simp [cleanupExpiredCache, foldl_merase_lookup, hmem]

theorem cleanup_keysNodup (now : Int) (st : TranscoderState)
    (h1 : keysNodup st.transcodingCache) (h2 : keysNodup st.cacheExpiry) :
    keysNodup (cleanupExpiredCache now st).1.transcodingCache
    ∧ keysNodup (cleanupExpiredCache now st).1.cacheExpiry := by
  constructor <;> exact foldl_merase_keysNodup _ _ (by assumption)

theorem cleanup_lookup_none (now : Int) (st : TranscoderState) (k : String)
    (h : mlookup st.transcodingCache k = none) :
    mlookup (cleanupExpiredCache now st).1.transcodingCache k = none := by
  simp only [cleanupExpiredCache, foldl_merase_lookup]
  by_cases hmem : k ∈ (st.cacheExpiry.filter (fun kv => now > kv.2)).map Prod.fst <;>
    simp [hmem, h]

/-- C5: a lookup in the artifact cache reports a hit only if the entry is
not past its expiry and its artifact still exists on disk; an expired
entry is evicted from both maps with its backing file removed, a
still-current entry whose file has disappeared is evicted from both maps,
and a current entry whose file exists is returned as a hit. -/
theorem C5_cache_hit_validity (now : Int) (fs : String → Bool) (k : String)
    (st : TranscoderState) (hN : keysNodup st.cacheExpiry) :
    (∀ p, (getCachedOutput now fs k st).1 = (p, true) →
      fs p = true ∧ mlookup st.transcodingCache k = some p
      ∧ ∀ e, mlookup st.cacheExpiry k = some e → ¬ now > e)
    ∧ (∀ p e, mlookup st.transcodingCache k = some p →
        mlookup st.cacheExpiry k = some e → now > e →
        (getCachedOutput now fs k st).1.2 = false
        ∧ mlookup (getCachedOutput now fs k st).2.1.transcodingCache k = none
        ∧ mlookup (getCachedOutput now fs k st).2.1.cacheExpiry k = none
        ∧ p ∈ (getCachedOutput now fs k st).2.2)
    ∧ (∀ p, mlookup st.transcodingCache k = some p → fs p = false →
        (getCachedOutput now fs k st).1.2 = false
        ∧ mlookup (getCachedOutput now fs k st).2.1.transcodingCache k = none
        ∧ mlookup (getCachedOutput now fs k st).2.1.cacheExpiry k = none)
    ∧ (∀ p, mlookup st.transcodingCache k = some p →
        (∀ e, mlookup st.cacheExpiry k = some e → ¬ now > e) → fs p = true →
        (getCachedOutput now fs k st).1 = (p, true)) := by
  refine ⟨?_, ?_, ?_, ?_⟩
  · intro p hp
    by_cases hexp : ∃ e, mlookup st.cacheExpiry k = some e ∧ now > e
    · exfalso
      rcases hexp with ⟨e, he, hgt⟩
      have hc := (cleanup_expired_at now st k e hN he hgt).1
      simp only [getCachedOutput, hc] at hp
      exact absurd (congrArg Prod.snd hp) (by simp)
    · have hexp2 : ∀ e, mlookup st.cacheExpiry k = some e → ¬ now > e :=
        fun e he hgt => hexp ⟨e, he, hgt⟩
      have hc := (cleanup_not_expired_at now st k hN hexp2).1
      rcases hlook : mlookup st.transcodingCache k with _ | q
      · exfalso
        rw [hlook] at hc
        simp only [getCachedOutput, hc] at hp
        exact absurd (congrArg Prod.snd hp) (by simp)
      · rw [hlook] at hc
        by_cases hfs : fs q
        · simp only [getCachedOutput, hc, if_pos hfs] at hp
          have hqp : q = p := congrArg Prod.fst hp
          rw [← hqp]
          exact ⟨hfs, rfl, hexp2⟩
        · exfalso
          simp only [getCachedOutput, hc, if_neg hfs] at hp
          exact absurd (congrArg Prod.snd hp) (by simp)
  · intro p e hp he hgt
    have hc := cleanup_expired_at now st k e hN he hgt
    have hrm : (getCachedOutput now fs k st).2.2 = (cleanupExpiredCache now st).2 := by
      simp [getCachedOutput, hc.1]
    refine ⟨?_, ?_, ?_, ?_⟩
    · simp [getCachedOutput, hc.1]
    · simp [getCachedOutput, hc.1]
    · simp [getCachedOutput, hc.1, hc.2.1]
    · rw [hrm]
      exact hc.2.2 p hp
  · intro p hp hfs
    by_cases hexp : ∃ e, mlookup st.cacheExpiry k = some e ∧ now > e
    · rcases hexp with ⟨e, he, hgt⟩
      have hc := cleanup_expired_at now st k e hN he hgt
      refine ⟨?_, ?_, ?_⟩ <;> simp [getCachedOutput, hc.1, hc.2.1]
    · have hexp2 : ∀ e, mlookup st.cacheExpiry k = some e → ¬ now > e :=
        fun e he hgt => hexp ⟨e, he, hgt⟩
      have hc := cleanup_not_expired_at now st k hN hexp2
      have hc1 := hc.1
      rw [hp] at hc1
      refine ⟨?_, ?_, ?_⟩ <;>
        simp [getCachedOutput, hc1, hp, hfs, mlookup_merase]
  · intro p hp hexp hfs
    have hc := cleanup_not_expired_at now st k hN hexp
    have hc1 := hc.1
    rw [hp] at hc1
    simp [getCachedOutput, hc1, hfs]

/-- Witness for C5 at a concrete expired entry: the lookup misses, both
map entries are gone, and the artifact file was removed. -/
theorem C5_cache_hit_validity_witness :
    (getCachedOutput 10 (fun _ => true) "key"
        { transcodingCache := [("key", "/tmp/out.mp4")],
          cacheExpiry := [("key", 5)], tempDir := "/tmp" }).1.2 = false
    ∧ mlookup (getCachedOutput 10 (fun _ => true) "key"
        { transcodingCache := [("key", "/tmp/out.mp4")],
          cacheExpiry := [("key", 5)], tempDir := "/tmp" }).2.1.transcodingCache "key"
      = none
    ∧ mlookup (getCachedOutput 10 (fun _ => true) "key"
        { transcodingCache := [("key", "/tmp/out.mp4")],
          cacheExpiry := [("key", 5)], tempDir := "/tmp" }).2.1.cacheExpiry "key"
      = none
    ∧ "/tmp/out.mp4" ∈ (getCachedOutput 10 (fun _ => true) "key"
        { transcodingCache := [("key", "/tmp/out.mp4")],
          cacheExpiry := [("key", 5)], tempDir := "/tmp" }).2.2 :=
  (C5_cache_hit_validity 10 (fun _ => true) "key"
      { transcodingCache := [("key", "/tmp/out.mp4")],
        cacheExpiry := [("key", 5)], tempDir := "/tmp" } (by decide)).2.1
    "/tmp/out.mp4" 5 (by decide) (by decide) (by decide)

theorem TranscodeToMp4_cache_hit (env : TranscodeEnv) (now : Int)
    (st : TranscoderState) (p : String) (s a : Int) (out : String)
    (h : (getCachedOutput now env.fsExists (transcodeCacheKey p s a) st).1 = (out, true)) :
    TranscodeToMp4 env now st p s a =
      { result := .ok out
        state := (getCachedOutput now env.fsExists (transcodeCacheKey p s a) st).2.1
        encodeRuns := 0
        removedFiles := (getCachedOutput now env.fsExists (transcodeCacheKey p s a) st).2.2 } := by
  have h2 : (getCachedOutput now env.fsExists (transcodeCacheKey p s a) st).1.2 = true := by
    rw [h]
  have h1 : (getCachedOutput now env.fsExists (transcodeCacheKey p s a) st).1.1 = out := by
    rw [h]
  simp [TranscodeToMp4, h1, h2]

theorem TranscodeToMp4_miss_encode (env : TranscodeEnv) (now : Int)
    (st : TranscoderState) (p : String) (s a : Int)
    (hmiss : (getCachedOutput now env.fsExists (transcodeCacheKey p s a) st).1.2 = false)
    (hff : env.ffmpegOk = true) (hmi : env.mediaInfoOk = true)
    (henc : env.encodeOk = true) :
    TranscodeToMp4 env now st p s a =
      { result := .ok (transcodeOutputFile st.tempDir p s a)
        state :=
          { (getCachedOutput now env.fsExists (transcodeCacheKey p s a) st).2.1 with
            transcodingCache :=
              minsert (getCachedOutput now env.fsExists (transcodeCacheKey p s a) st).2.1.transcodingCache
                (transcodeCacheKey p s a) (transcodeOutputFile st.tempDir p s a)
            cacheExpiry :=
              minsert (getCachedOutput now env.fsExists (transcodeCacheKey p s a) st).2.1.cacheExpiry
                (transcodeCacheKey p s a) (now + cacheTTL) }
        encodeRuns := 1
        removedFiles := (getCachedOutput now env.fsExists (transcodeCacheKey p s a) st).2.2 } := by
  simp [TranscodeToMp4, hmiss, hff, hmi, henc]

theorem TranscodeToMp4_miss_runs (env : TranscodeEnv) (now : Int)
    (st : TranscoderState) (p : String) (s a : Int)
    (hmiss : (getCachedOutput now env.fsExists (transcodeCacheKey p s a) st).1.2 = false)
    (hff : env.ffmpegOk = true) (hmi : env.mediaInfoOk = true) :
    (TranscodeToMp4 env now st p s a).encodeRuns = 1 := by
  by_cases henc : env.encodeOk <;> simp [TranscodeToMp4, hmiss, hff, hmi, henc]

/-- C4: with the artifact cache initially empty at the job key, a first
`TranscodeToMp4` call runs the encoder once and returns the derived
artifact path; a second call within the 24h TTL whose artifact is still
on disk returns the same path without starting the encoder; and a third
call after TTL expiry, or whose artifact has been deleted from disk,
starts the encoder again. -/
theorem C4_transcode_cache_idempotent (env1 env2 env3 : TranscodeEnv)
    (st0 : TranscoderState) (p : String) (s a : Int) (t1 t2 t3 : Int)
    (hN2 : keysNodup st0.cacheExpiry)
    (h0 : mlookup st0.transcodingCache (transcodeCacheKey p s a) = none)
    (hff1 : env1.ffmpegOk = true) (hmi1 : env1.mediaInfoOk = true)
    (henc1 : env1.encodeOk = true)
    (hfs2 : env2.fsExists (transcodeOutputFile st0.tempDir p s a) = true)
    (ht2 : ¬ t2 > t1 + cacheTTL)
    (hff3 : env3.ffmpegOk = true) (hmi3 : env3.mediaInfoOk = true)
    (h3 : t3 > t1 + cacheTTL
        ∨ env3.fsExists (transcodeOutputFile st0.tempDir p s a) = false) :
    (TranscodeToMp4 env1 t1 st0 p s a).result
      = .ok (transcodeOutputFile st0.tempDir p s a)
    ∧ (TranscodeToMp4 env1 t1 st0 p s a).encodeRuns = 1
    ∧ (TranscodeToMp4 env2 t2 (TranscodeToMp4 env1 t1 st0 p s a).state p s a).result
      = .ok (transcodeOutputFile st0.tempDir p s a)
    ∧ (TranscodeToMp4 env2 t2 (TranscodeToMp4 env1 t1 st0 p s a).state p s a).encodeRuns
      = 0
    ∧ (TranscodeToMp4 env3 t3
        (TranscodeToMp4 env2 t2 (TranscodeToMp4 env1 t1 st0 p s a).state p s a).state
        p s a).encodeRuns = 1 := by
  have hc1none : mlookup (cleanupExpiredCache t1 st0).1.transcodingCache
      (transcodeCacheKey p s a) = none :=
    cleanup_lookup_none t1 st0 _ h0
  have hg1 : getCachedOutput t1 env1.fsExists (transcodeCacheKey p s a) st0
      = (("", false), (cleanupExpiredCache t1 st0).1, (cleanupExpiredCache t1 st0).2) := by
    simp [getCachedOutput, hc1none]
  have hmiss1 : (getCachedOutput t1 env1.fsExists (transcodeCacheKey p s a) st0).1.2
      = false := by
    rw [hg1]
  have hr1 := TranscodeToMp4_miss_encode env1 t1 st0 p s a hmiss1 hff1 hmi1 henc1
  have hr1res : (TranscodeToMp4 env1 t1 st0 p s a).result
      = .ok (transcodeOutputFile st0.tempDir p s a) := by
    rw [hr1]
  have hr1runs : (TranscodeToMp4 env1 t1 st0 p s a).encodeRuns = 1 := by
    rw [hr1]
  have hst1c : (TranscodeToMp4 env1 t1 st0 p s a).state.transcodingCache
      = minsert (cleanupExpiredCache t1 st0).1.transcodingCache
          (transcodeCacheKey p s a) (transcodeOutputFile st0.tempDir p s a) := by
    rw [hr1]
    simp [hg1]
  have hst1e : (TranscodeToMp4 env1 t1 st0 p s a).state.cacheExpiry
      = minsert (cleanupExpiredCache t1 st0).1.cacheExpiry
          (transcodeCacheKey p s a) (t1 + cacheTTL) := by
    rw [hr1]
    simp [hg1]
  have hcleanNodup : keysNodup (cleanupExpiredCache t1 st0).1.cacheExpiry := by
    simp only [cleanupExpiredCache]
    exact foldl_merase_keysNodup _ _ hN2
  have hN1 : keysNodup (TranscodeToMp4 env1 t1 st0 p s a).state.cacheExpiry := by
    rw [hst1e]
    exact keysNodup_minsert _ _ _ hcleanNodup
  have hlook2c : mlookup (TranscodeToMp4 env1 t1 st0 p s a).state.transcodingCache
      (transcodeCacheKey p s a) = some (transcodeOutputFile st0.tempDir p s a) := by
    rw [hst1c]
    exact mlookup_minsert _ _ _
  have hlook2e : mlookup (TranscodeToMp4 env1 t1 st0 p s a).state.cacheExpiry
      (transcodeCacheKey p s a) = some (t1 + cacheTTL) := by
    rw [hst1e]
    exact mlookup_minsert _ _ _
  have hexp2 : ∀ e, mlookup (TranscodeToMp4 env1 t1 st0 p s a).state.cacheExpiry
      (transcodeCacheKey p s a) = some e → ¬ t2 > e := by
    intro e he
    rw [hlook2e] at he
    obtain rfl : t1 + cacheTTL = e := Option.some.inj he
    exact ht2
  have hcne2 := cleanup_not_expired_at t2 (TranscodeToMp4 env1 t1 st0 p s a).state
    (transcodeCacheKey p s a) hN1 hexp2
  have hc2c : mlookup
      (cleanupExpiredCache t2 (TranscodeToMp4 env1 t1 st0 p s a).state).1.transcodingCache
      (transcodeCacheKey p s a) = some (transcodeOutputFile st0.tempDir p s a) := by
    rw [hcne2.1, hlook2c]
  have hg2 : getCachedOutput t2 env2.fsExists (transcodeCacheKey p s a)
      (TranscodeToMp4 env1 t1 st0 p s a).state
      = ((transcodeOutputFile st0.tempDir p s a, true),
         (cleanupExpiredCache t2 (TranscodeToMp4 env1 t1 st0 p s a).state).1,
         (cleanupExpiredCache t2 (TranscodeToMp4 env1 t1 st0 p s a).state).2) := by
    simp [getCachedOutput, hc2c, hfs2]
  have hhit2 : (getCachedOutput t2 env2.fsExists (transcodeCacheKey p s a)
      (TranscodeToMp4 env1 t1 st0 p s a).state).1
      = (transcodeOutputFile st0.tempDir p s a, true) := by
    rw [hg2]
  have hr2 := TranscodeToMp4_cache_hit env2 t2 (TranscodeToMp4 env1 t1 st0 p s a).state
    p s a (transcodeOutputFile st0.tempDir p s a) hhit2
  have hr2res : (TranscodeToMp4 env2 t2 (TranscodeToMp4 env1 t1 st0 p s a).state p s a).result
      = .ok (transcodeOutputFile st0.tempDir p s a) := by
    rw [hr2]
  have hr2runs : (TranscodeToMp4 env2 t2 (TranscodeToMp4 env1 t1 st0 p s a).state p s a).encodeRuns
      = 0 := by
    rw [hr2]
  have hst2 : (TranscodeToMp4 env2 t2 (TranscodeToMp4 env1 t1 st0 p s a).state p s a).state
      = (cleanupExpiredCache t2 (TranscodeToMp4 env1 t1 st0 p s a).state).1 := by
    rw [hr2]
    simp [hg2]
  have hc2e : mlookup
      (TranscodeToMp4 env2 t2 (TranscodeToMp4 env1 t1 st0 p s a).state p s a).state.cacheExpiry
      (transcodeCacheKey p s a) = some (t1 + cacheTTL) := by
    rw [hst2, hcne2.2, hlook2e]
  have hc2c' : mlookup
      (TranscodeToMp4 env2 t2 (TranscodeToMp4 env1 t1 st0 p s a).state p s a).state.transcodingCache
      (transcodeCacheKey p s a) = some (transcodeOutputFile st0.tempDir p s a) := by
    rw [hst2]
    exact hc2c
  have hN3 : keysNodup
      (TranscodeToMp4 env2 t2 (TranscodeToMp4 env1 t1 st0 p s a).state p s a).state.cacheExpiry := by
    rw [hst2]
    simp only [cleanupExpiredCache]
    exact foldl_merase_keysNodup _ _ hN1
  have hmiss3 : (getCachedOutput t3 env3.fsExists (transcodeCacheKey p s a)
      (TranscodeToMp4 env2 t2 (TranscodeToMp4 env1 t1 st0 p s a).state p s a).state).1.2
      = false := by
    by_cases hexp3 : t3 > t1 + cacheTTL
    · have hc3 := cleanup_expired_at t3
        (TranscodeToMp4 env2 t2 (TranscodeToMp4 env1 t1 st0 p s a).state p s a).state
        (transcodeCacheKey p s a) (t1 + cacheTTL) hN3 hc2e hexp3
      simp [getCachedOutput, hc3.1]
    · rcases h3 with h3 | h3
      · exact absurd h3 hexp3
      · have hexp3' : ∀ e, mlookup
            (TranscodeToMp4 env2 t2 (TranscodeToMp4 env1 t1 st0 p s a).state p s a).state.cacheExpiry
            (transcodeCacheKey p s a) = some e → ¬ t3 > e := by
          intro e he
          rw [hc2e] at he
          obtain rfl : t1 + cacheTTL = e := Option.some.inj he
          exact hexp3
        have hc3 := cleanup_not_expired_at t3
          (TranscodeToMp4 env2 t2 (TranscodeToMp4 env1 t1 st0 p s a).state p s a).state
          (transcodeCacheKey p s a) hN3 hexp3'
        have hl3 := hc3.1
        rw [hc2c'] at hl3
        simp [getCachedOutput, hl3, h3]
  have hr3runs : (TranscodeToMp4 env3 t3
      (TranscodeToMp4 env2 t2 (TranscodeToMp4 env1 t1 st0 p s a).state p s a).state
      p s a).encodeRuns = 1 :=
    TranscodeToMp4_miss_runs env3 t3 _ p s a hmiss3 hff3 hmi3
  exact ⟨hr1res, hr1runs, hr2res, hr2runs, hr3runs⟩

/-- Witness for C4: concrete first/second/third calls on an initially
empty cache; the third call happens after the TTL has elapsed. -/
theorem C4_transcode_cache_idempotent_witness :
    (TranscodeToMp4 ⟨true, true, true, fun _ => false⟩ 0
        ⟨[], [], "/tmp/t"⟩ "/m/a.mkv" 0 (-1)).result
      = .ok (transcodeOutputFile "/tmp/t" "/m/a.mkv" 0 (-1))
    ∧ (TranscodeToMp4 ⟨true, true, true, fun _ => true⟩ 1
        (TranscodeToMp4 ⟨true, true, true, fun _ => false⟩ 0
          ⟨[], [], "/tmp/t"⟩ "/m/a.mkv" 0 (-1)).state "/m/a.mkv" 0 (-1)).encodeRuns = 0
    ∧ (TranscodeToMp4 ⟨true, true, true, fun _ => true⟩ (2 * cacheTTL)
        (TranscodeToMp4 ⟨true, true, true, fun _ => true⟩ 1
          (TranscodeToMp4 ⟨true, true, true, fun _ => false⟩ 0
            ⟨[], [], "/tmp/t"⟩ "/m/a.mkv" 0 (-1)).state "/m/a.mkv" 0 (-1)).state
        "/m/a.mkv" 0 (-1)).encodeRuns = 1 := by
  have h := C4_transcode_cache_idempotent
    ⟨true, true, true, fun _ => false⟩ ⟨true, true, true, fun _ => true⟩
    ⟨true, true, true, fun _ => true⟩ ⟨[], [], "/tmp/t"⟩ "/m/a.mkv" 0 (-1)
    0 1 (2 * cacheTTL) (by decide) rfl rfl rfl rfl rfl (by decide)
    rfl rfl (Or.inl (by decide))
  exact ⟨h.1, h.2.2.2.1, h.2.2.2.2⟩

/-- The claim's clamping rule for the end bound: `end` is replaced by
`size-1` whenever it is missing, at least `size`, or less than `start`. -/
def claimedEnd (S : Int) (s : Nat) (eo : Option Nat) : Int :=
  match eo with
  | none => S - 1
  | some e => if (e : Int) < (s : Int) ∨ (e : Int) ≥ S then S - 1 else (e : Int)

/-- Evaluation of the `handleRangeRequest` parsing block on a header of
the form `bytes=<start>-<end>` with decimal bounds (`end` optional). -/
theorem parseRangeHeader_eq (S : Int) (sc ec : List Char) (s : Nat) (eo : Option Nat)
    (hsc : parseDigits sc = some s) (hs64 : (s : Int) ≤ int64Max)
    (hec : match eo with
           | none => ec = []
           | some e => parseDigits ec = some e ∧ (e : Int) ≤ int64Max) :
    parseRangeHeader ("bytes=".toList ++ (sc ++ '-' :: ec)) S
      = ((s : Int), match eo with | none => S - 1 | some e => (e : Int)) := by
  have hscne := parseDigits_ne_nil sc s hsc
  have hdash := not_dash_mem_of_parseDigits sc s hsc
  have hsclen : 0 < sc.length := List.length_pos.mpr hscne
  have hlen : ("bytes=".toList ++ (sc ++ '-' :: ec)).length > 6 := by
    simp only [List.length_append, List.length_cons]
    have h6 : ("bytes=".toList).length = 6 := rfl
    omega
  have htake : ("bytes=".toList ++ (sc ++ '-' :: ec)).take 6 = "bytes=".toList := by
    rw [show (6 : Nat) = ("bytes=".toList).length from rfl]
    exact List.take_left _ _
  have hdrop : ("bytes=".toList ++ (sc ++ '-' :: ec)).drop 6 = sc ++ '-' :: ec := by
    rw [show (6 : Nat) = ("bytes=".toList).length from rfl]
    exact List.drop_left _ _
  unfold parseRangeHeader
  rw [if_pos ⟨hlen, htake⟩, hdrop, goSplit_append '-' sc ec hdash]
  rcases eo with _ | e
  · obtain rfl : ec = [] := hec
    simp only [goSplit, List.head?_cons, List.getElem?_cons_succ, List.getElem?_cons_zero,
      if_pos hscne]
    rw [goParseInt_of_parseDigits sc s hsc hs64]
    simp
  · obtain ⟨hpe, he64⟩ := hec
    have hecne := parseDigits_ne_nil ec e hpe
    have hdashe := not_dash_mem_of_parseDigits ec e hpe
    rw [goSplit_no_sep '-' ec hdashe]
    simp only [List.head?_cons, List.getElem?_cons_succ, List.getElem?_cons_zero,
      if_pos hscne, if_pos hecne]
    rw [goParseInt_of_parseDigits sc s hsc hs64,
      goParseInt_of_parseDigits ec e hpe he64]

/-- C1: for a file of size `S` served by the range-aware responder, a
request with no `Range` header answers 200 with `Content-Length` `S` and
the whole body; a request `bytes=<start>-<end>` (decimal `start`,
optional decimal `end`) with `0 ≤ start < S` answers 206 with
`Content-Range: bytes start-end'/S` and exactly `end'-start+1` body
bytes, where `end'` clamps `end` to `S-1` whenever it is missing, at
least `S`, or less than `start`; and a request whose `start` is outside
`[0, S)` answers 416. -/
theorem C1_range_responder (S : Int)
    (sc ec : List Char) (s : Nat) (eo : Option Nat)
    (hsc : parseDigits sc = some s) (hs64 : (s : Int) ≤ int64Max)
    (hec : match eo with
           | none => ec = []
           | some e => parseDigits ec = some e ∧ (e : Int) ≤ int64Max) :
    serveFileEfficiently [] S
      = { status := 200, contentRange := none, contentLength := some S, bodyLen := S }
    ∧ ((s : Int) < S →
        serveFileEfficiently ("bytes=".toList ++ (sc ++ '-' :: ec)) S
          = { status := 206
              contentRange := some ((s : Int), claimedEnd S s eo, S)
              contentLength := some (claimedEnd S s eo - s + 1)
              bodyLen := claimedEnd S s eo - s + 1 })
    ∧ ((s : Int) ≥ S →
        (serveFileEfficiently ("bytes=".toList ++ (sc ++ '-' :: ec)) S).status = 416) := by
  have hne : ("bytes=".toList ++ (sc ++ '-' :: ec)) ≠ [] := by
    simp
  have hp := parseRangeHeader_eq S sc ec s eo hsc hs64 hec
  refine ⟨by simp [serveFileEfficiently], ?_, ?_⟩
  · intro hlt
    have hs0 : ¬ ((s : Int) < 0 ∨ (s : Int) ≥ S) := by
      push_neg
      exact ⟨Int.ofNat_nonneg s, hlt⟩
    rw [serveFileEfficiently, if_neg hne, handleRangeRequest, hp]
    rcases eo with _ | e
    · have hclamp : ¬ (S - 1 < (s : Int) ∨ S - 1 ≥ S) := by omega
      simp only [claimedEnd, if_neg hs0, if_neg hclamp]
      have hmin : min (S - 1 - (s : Int) + 1) (S - (s : Int)) = S - 1 - (s : Int) + 1 := by
        omega
      rw [hmin]
    · by_cases hcl : (e : Int) < (s : Int) ∨ (e : Int) ≥ S
      · have hclamp : ¬ (S - 1 < (s : Int) ∨ S - 1 ≥ S) := by omega
        simp only [claimedEnd, if_neg hs0, if_pos hcl, if_neg hclamp]
        have hmin : min (S - 1 - (s : Int) + 1) (S - (s : Int)) = S - 1 - (s : Int) + 1 := by
          omega
        rw [hmin]
      · simp only [claimedEnd, if_neg hs0, if_neg hcl]
        have hmin : min ((e : Int) - (s : Int) + 1) (S - (s : Int))
            = (e : Int) - (s : Int) + 1 := by
          omega
        rw [hmin]
  · intro hge
    have hs0 : (s : Int) < 0 ∨ (s : Int) ≥ S := Or.inr hge
    rw [serveFileEfficiently, if_neg hne, handleRangeRequest, hp]
    rcases eo with _ | e <;> simp [hs0]

/-- Witness for C1 at the spec's own example: `bytes=900-` on a
1000-byte file answers 206 with range `900-999/1000` and 100 body
bytes. -/
theorem C1_range_responder_witness :
    serveFileEfficiently ("bytes=".toList ++ (['9', '0', '0'] ++ '-' :: ([] : List Char)))
        1000
      = { status := 206, contentRange := some (900, 999, 1000),
          contentLength := some 100, bodyLen := 100 } := by
  have h := (C1_range_responder 1000 ['9', '0', '0'] [] 900 none
    (by decide) (by decide) rfl).2.1 (by decide)
  rw [h]
  decide

/-- Witness for C9 (amended): a timed-out search that found one device
returns it successfully. -/
theorem C9_timeout_returns_accumulated_witness :
    SearchDevicesWithContext
        [{ USN := "uuid:tv-1", Location := "http://10.0.0.5/desc.xml", Server := "S" }]
        (fun _ => some { friendlyName := "TV", UDN := "uuid:tv-1" }) true
      = .ok [{ USN := "uuid:tv-1", Location := "http://10.0.0.5/desc.xml",
               Server := "S", FriendlyName := "TV", UDN := "uuid:tv-1" }] := by
  have h := (C9_timeout_returns_accumulated
      [{ USN := "uuid:tv-1", Location := "http://10.0.0.5/desc.xml", Server := "S" }]
      (fun _ => some { friendlyName := "TV", UDN := "uuid:tv-1" })).1 (by decide)
  simpa using h

end GoCastify
